import Mathlib

/-!
Verification of the Affine leaderboard data pipeline (`src/app/page.tsx`).

The pipeline has two halves:
* the row decoder inside `fetchData` (page.tsx:85-143), which turns the
  untyped `header`/`rows`/`environments` payload into model records,
  deriving `avgEnvScore` and `totalSamples` from slash-delimited cells via
  `parseEnvScore` (page.tsx:95-101) and `parseTotalSamples` (page.tsx:103-109);
* the view model `sortData` (page.tsx:177-203) and `filterData`
  (page.tsx:205-223) over the typed `ModelRow` interface (page.tsx:37-50).

JavaScript numbers are idealised as rationals (`ℚ`); `parseFloat` and
`parseInt` are modelled by prefix parsers returning `Option` (`none` = NaN;
the `Infinity` literal is treated as unparsed, since `ℚ` has no infinities).
Dynamic (untyped) cell values are modelled by `Cell`; a thrown TypeError is
an `Except.error`.
-/

attribute [local semireducible] Rat.mul Rat.add Rat.inv Rat.sub

deriving instance DecidableEq for Except

/-- A dynamic JavaScript cell value as it can appear in `rows : any[][]`.
(Objects/arrays are not modelled; any truthy non-string behaves like `num`
for the code paths in scope, which only call `.split` on such values.) -/
inductive Cell where
  | str (s : String)
  | num (q : ℚ)
  | bool (b : Bool)
  | null
  | undefined
deriving DecidableEq, Repr

/-- JavaScript truthiness of a `Cell`. -/
def Cell.truthy : Cell → Bool
  | .str s => s != ""
  | .num q => q != 0
  | .bool b => b
  | .null => false
  | .undefined => false

/-- JavaScript `a || b`. -/
def jsOr (a b : Cell) : Cell := if a.truthy then a else b

/-- Drop leading whitespace, as `parseFloat`/`parseInt` do. -/
def skipWs (cs : List Char) : List Char := cs.dropWhile (fun c => c.isWhitespace)

/-- Numeric value of a list of decimal digits. -/
def digitsToNat (ds : List Char) : Nat := ds.foldl (fun n c => 10 * n + (c.toNat - 48)) 0

/-- Split an optional leading sign, returning the sign as a rational. -/
def splitSign (cs : List Char) : ℚ × List Char :=
  match cs with
  | '-' :: t => (-1, t)
  | '+' :: t => (1, t)
  | t => (1, t)

/-- Exponent part of a JS float literal (`e`/`E` already consumed);
an invalid exponent is ignored (contributes 0), matching prefix parsing. -/
def parseExpPart (cs : List Char) : Int :=
  let (esign, cs₁) := splitSign cs
  let ds := cs₁.takeWhile (fun c => c.isDigit)
  if ds.isEmpty then 0 else (if esign < 0 then -(digitsToNat ds : Int) else (digitsToNat ds : Int))

/-- Model of JavaScript `parseFloat`: longest numeric prefix after optional
whitespace and sign; `none` models NaN. -/
def jsParseFloat (s : String) : Option ℚ :=
  let cs := skipWs s.data
  let (sign, cs₁) := splitSign cs
  let intDigits := cs₁.takeWhile (fun c => c.isDigit)
  let cs₂ := cs₁.dropWhile (fun c => c.isDigit)
  let fracRest : List Char × List Char :=
    match cs₂ with
    | '.' :: t => (t.takeWhile (fun c => c.isDigit), t.dropWhile (fun c => c.isDigit))
    | t => ([], t)
  let fracDigits := fracRest.1
  let rest := fracRest.2
  if intDigits.isEmpty && fracDigits.isEmpty then none
  else
    let mantissa : ℚ :=
      (digitsToNat intDigits : ℚ) + (digitsToNat fracDigits : ℚ) / (10 : ℚ) ^ fracDigits.length
    let exp : Int :=
      match rest with
      | 'e' :: t => parseExpPart t
      | 'E' :: t => parseExpPart t
      | _ => 0
    some (sign * mantissa * (10 : ℚ) ^ exp)

/-- Value of a hexadecimal digit, if any. -/
def hexVal (c : Char) : Option Nat :=
  if c.isDigit then some (c.toNat - 48)
  else if 'a' ≤ c && c ≤ 'f' then some (c.toNat - 87)
  else if 'A' ≤ c && c ≤ 'F' then some (c.toNat - 70)
  else none

/-- Numeric value of a list of hex digits. -/
def hexDigitsToNat (ds : List Char) : Nat :=
  ds.foldl (fun n c => 16 * n + ((hexVal c).getD 0)) 0

/-- Model of JavaScript `parseInt` with no radix argument: optional
whitespace, sign, `0x` prefix for hex, longest digit prefix; `none` = NaN. -/
def jsParseInt (s : String) : Option Int :=
  let cs := skipWs s.data
  let (sign, cs₁) := splitSign cs
  let core : Option Nat :=
    match cs₁ with
    | '0' :: 'x' :: t =>
      let ds := t.takeWhile (fun c => (hexVal c).isSome)
      if ds.isEmpty then none else some (hexDigitsToNat ds)
    | '0' :: 'X' :: t =>
      let ds := t.takeWhile (fun c => (hexVal c).isSome)
      if ds.isEmpty then none else some (hexDigitsToNat ds)
    | _ =>
      let ds := cs₁.takeWhile (fun c => c.isDigit)
      if ds.isEmpty then none else some (digitsToNat ds)
  core.map (fun n => if sign < 0 then -(n : Int) else (n : Int))

/-- Split a character list at every occurrence of `sep`;
`[]` yields `[[]]`, matching JS `''.split(sep) = ['']`. -/
def splitOnChar (sep : Char) : List Char → List (List Char)
  | [] => [[]]
  | c :: cs =>
    match splitOnChar sep cs with
    | [] => [[]]
    | h :: t => if c = sep then [] :: h :: t else (c :: h) :: t

/-- JS `s.split(sep)` for a single-character separator. -/
def jsSplit (sep : Char) (s : String) : List String :=
  (splitOnChar sep s.data).map (fun cs => ⟨cs⟩)

/-- JS `s.replace('*', '')` with a string pattern removes only the first
occurrence. -/
def removeFirstStar : List Char → List Char
  | [] => []
  | c :: cs => if c = '*' then cs else c :: removeFirstStar cs

/-- `parts[0].replace('*','')` (page.tsx:99). -/
def jsReplaceStar (s : String) : String := ⟨removeFirstStar s.data⟩

/-- `parseEnvScore` (page.tsx:95-101). Returns the parsed accuracy
(`none` = the JS `null` / NaN outcomes); `Except.error` models the
TypeError raised by `scoreStr.split` on a truthy non-string cell. -/
def parseEnvScore (scoreStr : Cell) : Except Unit (Option ℚ) :=
  if !scoreStr.truthy || scoreStr == .str "" then .ok none
  else
    match scoreStr with
    | .str s =>
      let parts := jsSplit '/' s
      if parts.length < 1 then .ok none
      else
        match jsParseFloat (jsReplaceStar (parts.headD "")) with
        | none => .ok none
        | some accuracy => .ok (some accuracy)
    | _ => .error ()

/-- `parseTotalSamples` (page.tsx:103-109). `Except.error` models the
TypeError on a truthy non-string cell. -/
def parseTotalSamples (scoreStr : Cell) : Except Unit Int :=
  if !scoreStr.truthy || scoreStr == .str "" then .ok 0
  else
    match scoreStr with
    | .str s =>
      let parts := jsSplit '/' s
      if parts.length < 3 then .ok 0
      else
        match jsParseInt (parts.getD 2 "") with
        | none => .ok 0
        | some samples => .ok samples
    | _ => .error ()

/-- The part of the `WeightsData` payload the row decoder reads
(page.tsx:19-35): `data.header`, `data.rows`, `data.environments`. -/
structure ApiData where
  header : List String
  rows : List (List Cell)
  environments : List String
deriving DecidableEq, Repr

/-- `headerMap` built by `data.data.header.forEach((h, i) => headerMap[h] = i)`
(page.tsx:86-87): later assignments overwrite earlier ones, so a duplicate
column name resolves to its last index; an absent name is `undefined`. -/
def headerIndex (header : List String) (name : String) : Option Nat :=
  header.enum.foldl (fun acc p => if p.2 == name then some p.1 else acc) none

/-- `row[i]` for a possibly-`undefined` index: out-of-range or `undefined`
indexing yields `undefined`. -/
def rowGet (row : List Cell) : Option Nat → Cell
  | none => .undefined
  | some i => (row.get? i).getD .undefined

/-- Assignment `obj[k] = v` on a JS object viewed as an assoc list:
an existing key keeps its position and gets the new value, a new key is
appended (JS string-key insertion order). -/
def objInsert (l : List (String × Cell)) (k : String) (v : Cell) : List (String × Cell) :=
  if l.any (fun p => p.1 == k) then l.map (fun p => if p.1 == k then (k, v) else p)
  else l ++ [(k, v)]

/-- The `environments` object built per row (page.tsx:89-92):
`environments[env] = row[headerMap[env]] || ''`. -/
def buildEnvs (header : List String) (envs : List String) (row : List Cell) :
    List (String × Cell) :=
  envs.foldl (fun acc env => objInsert acc env (jsOr (rowGet row (headerIndex header env)) (.str ""))) []

/-- A decoded record as `fetchData` actually produces it (page.tsx:122-142).
The TS interface `ModelRow` (page.tsx:37-50) declares `uid`, `hotkey`,
`model`, `revision` and `firstBlock` as typed fields, but the decoder copies
whatever dynamic value sits in the row (possibly `undefined`), so those
fields are `Cell` here. -/
structure DecodedRow where
  uid : Cell
  hotkey : Cell
  model : Cell
  revision : Cell
  environments : List (String × Cell)
  layerPoints : List (String × Cell)
  totalPoints : Cell
  eligible : Bool
  firstBlock : Cell
  weight : Cell
  avgEnvScore : Option ℚ
  totalSamples : Int
deriving DecidableEq, Repr

/-- The body of `data.data.rows.map((row) => {...})` (page.tsx:85-143) for a
single row.  `Except.error` is a thrown TypeError escaping the map callback
(possible inside `parseEnvScore`/`parseTotalSamples` on truthy non-string
environment cells); everything else in the body cannot throw. -/
def decodeRow (d : ApiData) (row : List Cell) : Except Unit DecodedRow := do
  let headerMap := headerIndex d.header
  let environments := buildEnvs d.header d.environments row
  let envVals := environments.map (fun p => p.2)
  -- const scores = Object.values(environments).map(parseEnvScore).filter(s => s !== null)
  let parsed ← envVals.mapM parseEnvScore
  let scores := parsed.filterMap id
  -- const avgEnvScore = scores.length > 0 ? scores.reduce((s, x) => s + x, 0) / scores.length : null
  let avgEnvScore : Option ℚ :=
    if scores.length > 0 then some (scores.foldl (· + ·) 0 / (scores.length : ℚ)) else none
  -- const totalSamples = Object.values(environments).reduce((s, e) => s + parseTotalSamples(e), 0)
  let samples ← envVals.mapM parseTotalSamples
  let totalSamples : Int := samples.foldl (· + ·) 0
  pure {
    uid := rowGet row (headerMap "UID")
    hotkey := rowGet row (headerMap "Hotkey")
    model := rowGet row (headerMap "Model")
    revision := rowGet row (headerMap "Rev")
    environments := environments
    layerPoints := [
      ("L3", jsOr (rowGet row (headerMap "L3")) (.num 0)),
      ("L4", jsOr (rowGet row (headerMap "L4")) (.num 0)),
      ("L5", jsOr (rowGet row (headerMap "L5")) (.num 0)),
      ("L6", jsOr (rowGet row (headerMap "L6")) (.num 0)),
      ("L7", jsOr (rowGet row (headerMap "L7")) (.num 0)),
      ("L8", jsOr (rowGet row (headerMap "L8")) (.num 0))]
    totalPoints := jsOr (rowGet row (headerMap "Pts")) (.num 0)
    eligible := rowGet row (headerMap "Elig") == .str "Y"
    firstBlock := rowGet row (headerMap "FirstBlk")
    weight := jsOr (rowGet row (headerMap "Wgt")) (.num 0)
    avgEnvScore := avgEnvScore
    totalSamples := totalSamples
  }

/-- `data.data.rows.map(...)`: the first thrown TypeError aborts the map. -/
def decodeRows (d : ApiData) : Except Unit (List DecodedRow) :=
  d.rows.mapM (decodeRow d)

/-- The TS interface `ModelRow` (page.tsx:37-50), the typed record shape the
view-model functions `sortData`/`filterData` consume.  `number` fields are
rationals (`Int` for the integer-valued `uid`, `firstBlock`, `totalSamples`),
and `avgEnvScore : number | null` is an `Option`. -/
structure ModelRow where
  uid : Int
  hotkey : String
  model : String
  revision : String
  environments : List (String × String)
  layerPoints : List (String × ℚ)
  totalPoints : ℚ
  eligible : Bool
  firstBlock : Int
  weight : ℚ
  avgEnvScore : Option ℚ
  totalSamples : Int
deriving DecidableEq, Repr

/-- `pre` is a leading run of `hay` (helper for JS `String.includes`). -/
def listLeads (pre hay : List Char) : Bool :=
  match pre, hay with
  | [], _ => true
  | _ :: _, [] => false
  | a :: as, b :: bs => a == b && listLeads as bs

/-- `needle` occurs contiguously inside `hay`. -/
def listContains (needle : List Char) : List Char → Bool
  | [] => listLeads needle []
  | h :: t => listLeads needle (h :: t) || listContains needle t

/-- JS `s.includes(sub)`: substring containment (the empty string is
contained in everything). -/
def jsIncludes (s sub : String) : Bool := listContains sub.data s.data

/-- JS `s.toLowerCase()`, modelled per-character. -/
def jsToLower (s : String) : String := ⟨s.data.map Char.toLower⟩

/-- The `selectedTab` state, `'all' | 'eligible'` (page.tsx:60). -/
inductive Tab where
  | all
  | eligible
deriving DecidableEq, Repr

/-- The search predicate inlined in `filterData` (page.tsx:210-214):
`item.model.toLowerCase().includes(q.toLowerCase()) ||
 item.hotkey.toLowerCase().includes(q.toLowerCase()) ||
 item.uid.toString().includes(q)`. -/
def searchHit (searchQuery : String) (item : ModelRow) : Bool :=
  jsIncludes (jsToLower item.model) (jsToLower searchQuery) ||
  jsIncludes (jsToLower item.hotkey) (jsToLower searchQuery) ||
  jsIncludes (toString item.uid) searchQuery

/-- `filterData` (page.tsx:205-223): the search filter applies when the
query is truthy (non-empty), then the tab filter applies for `'eligible'`. -/
def filterData (searchQuery : String) (selectedTab : Tab) (data : List ModelRow) :
    List ModelRow :=
  let filtered := data
  let filtered := if searchQuery != "" then filtered.filter (searchHit searchQuery) else filtered
  let filtered := if selectedTab == Tab.eligible then filtered.filter (fun item => item.eligible) else filtered
  filtered

/-- The sortable fields of `ModelRow` (the string `sortField` state,
restricted to the record's own keys; a key outside the record would compare
everything equal and is omitted). -/
inductive SortField where
  | uid
  | hotkey
  | model
  | revision
  | totalPoints
  | eligible
  | firstBlock
  | weight
  | avgEnvScore
  | totalSamples
deriving DecidableEq, Repr

/-- `'asc' | 'desc'` (page.tsx:57). -/
inductive SortDirection where
  | asc
  | desc
deriving DecidableEq, Repr

/-- A JS value as seen by the generic comparison path of `sortData`
(per field the value is uniformly a number, a string, or a boolean). -/
inductive JsVal where
  | num (q : ℚ)
  | str (s : String)
  | bool (b : Bool)
deriving DecidableEq, Repr

/-- `a[sortField as keyof ModelRow]` for the fields the generic comparison
path can see.  `avgEnvScore` never reaches this path (page.tsx:183 returns
first); its equation is arbitrary and unused. -/
def fieldVal (f : SortField) (r : ModelRow) : JsVal :=
  match f with
  | .uid => .num r.uid
  | .hotkey => .str r.hotkey
  | .model => .str r.model
  | .revision => .str r.revision
  | .totalPoints => .num r.totalPoints
  | .eligible => .bool r.eligible
  | .firstBlock => .num r.firstBlock
  | .weight => .num r.weight
  | .avgEnvScore => .num (r.avgEnvScore.getD 0)
  | .totalSamples => .num r.totalSamples

/-- `if (typeof v === 'string') v = v.toLowerCase()` (page.tsx:189-190). -/
def jsLower : JsVal → JsVal
  | .str s => .str (jsToLower s)
  | v => v

/-- `String(v)` for the `localeCompare` fallback (page.tsx:200). -/
def jsToString : JsVal → String
  | .num q => toString q
  | .str s => s
  | .bool b => if b then "true" else "false"

/-- Three-way comparison induced by a linear order; the sign of the JS
subtraction `a - b` for numbers. -/
def lcmp {α : Type} [LinearOrder α] (a b : α) : Ordering :=
  if a < b then .lt else if b < a then .gt else .eq

/-- Lexicographic comparison of char lists, modelling `localeCompare`
(locale effects idealised to code-point order). -/
def strCmpAux : List Char → List Char → Ordering
  | [], [] => .eq
  | [], _ :: _ => .lt
  | _ :: _, [] => .gt
  | a :: as, b :: bs =>
    match lcmp a b with
    | .eq => strCmpAux as bs
    | o => o

/-- `a.localeCompare(b)` sign. -/
def strCmp (a b : String) : Ordering := strCmpAux a.data b.data

/-- The `avgEnvScore` branch of the comparator (page.tsx:183-187):
`null` is replaced by `-Infinity`, then `aScore - bScore`.  `none` vs
`none` is `(-∞) - (-∞) = NaN`, which the sort treats as 0 (equal). -/
def scoreCmp : Option ℚ → Option ℚ → Ordering
  | none, none => .eq
  | none, some _ => .lt
  | some _, none => .gt
  | some a, some b => lcmp a b

/-- The generic comparison (page.tsx:195-201): numbers by subtraction sign,
otherwise `String(a).localeCompare(String(b))`.  (The `undefined`/`null` ↦ 0
coercion on page.tsx:192-193 is unreachable for typed records: the only
nullable field, `avgEnvScore`, returns earlier.) -/
def jsValCmp (a b : JsVal) : Ordering :=
  match a, b with
  | .num x, .num y => lcmp x y
  | a, b => strCmp (jsToString a) (jsToString b)

/-- Flip for descending direction: `asc ? cmp(a,b) : cmp(b,a)`. -/
def ordOfDir (d : SortDirection) (o : Ordering) : Ordering :=
  match d with
  | .asc => o
  | .desc => o.swap

/-- The full comparator passed to `sort` in `sortData` (page.tsx:178-202),
as an `Ordering` (the sign of the returned number). -/
def modelCompare (sortField : SortField) (d : SortDirection) (a b : ModelRow) : Ordering :=
  match sortField with
  | .avgEnvScore => ordOfDir d (scoreCmp a.avgEnvScore b.avgEnvScore)
  | f =>
    let aVal := jsLower (fieldVal f a)
    let bVal := jsLower (fieldVal f b)
    ordOfDir d (jsValCmp aVal bVal)

/-- `sortData` (page.tsx:177-203): `[...data].sort(comparator)`.
`Array.prototype.sort` is stable, so it is modelled by the stable
`List.mergeSort` on the comparator's non-strict order. -/
def sortData (sortField : SortField) (d : SortDirection) (data : List ModelRow) :
    List ModelRow :=
  data.mergeSort (fun a b => decide (modelCompare sortField d a b ≠ Ordering.gt))

/-- The view state touched by a fetch-and-decode cycle: `weightsData`,
`models`, `lastUpdate` (page.tsx:53-58; `lastUpdate` idealised to a
counter). -/
structure DashState where
  weightsData : Option ApiData
  models : List DecodedRow
  lastUpdate : Nat
deriving DecidableEq, Repr

/-- Outcome of the `fetch`/`response.json()` pair at the top of `fetchData`:
either it throws before any state is set (network error or malformed JSON),
or it yields a payload. -/
inductive FetchOutcome where
  | failure
  | success (payload : ApiData)
deriving DecidableEq, Repr

/-- One `fetchData` cycle (page.tsx:77-152) in terms of its state updates.
On a payload, `setWeightsData(data)` runs first (page.tsx:82); then the row
decode runs, and only if it does not throw do `setModels` and
`setLastUpdate` run (page.tsx:145-146).  All exceptions land in the `catch`
block, which only logs. -/
def fetchStep (s : DashState) (o : FetchOutcome) (now : Nat) : DashState :=
  match o with
  | .failure => s
  | .success p =>
    match decodeRows p with
    | .error _ => { s with weightsData := some p }
    | .ok ms => { weightsData := some p, models := ms, lastUpdate := now }

/-! ## Helper lemmas -/

/-- Folding addition from the left equals the monoid sum. -/
theorem foldl_add_eq_sum {M : Type} [AddCommMonoid M] (l : List M) (a : M) :
    l.foldl (· + ·) a = a + l.sum := by
  induction l generalizing a with
  | nil => simp
  | cons x t ih => simp [ih, add_assoc]

/-- A fold that only ever overwrites the accumulator on a match leaves it
unchanged when nothing matches. -/
theorem foldl_overwrite_none {name : String} (l : List (Nat × String))
    (h : ∀ p ∈ l, p.2 ≠ name) (acc : Option Nat) :
    l.foldl (fun acc p => if p.2 == name then some p.1 else acc) acc = acc := by
  induction l generalizing acc with
  | nil => rfl
  | cons p t ih =>
    have hp : (p.2 == name) = false := beq_eq_false_iff_ne.mpr (h p (List.mem_cons_self p t))
    simp only [List.foldl_cons, hp, Bool.false_eq_true, if_false]
    exact ih (fun q hq => h q (List.mem_cons_of_mem p hq)) acc

/-- A column name that does not occur in the header has no index. -/
theorem headerIndex_of_not_mem {header : List String} {name : String}
    (h : name ∉ header) : headerIndex header name = none := by
  unfold headerIndex
  apply foldl_overwrite_none
  intro p hp
  intro contra
  apply h
  rw [← contra]
  have : p.2 ∈ header.enum.map Prod.snd := List.mem_map_of_mem Prod.snd hp
  rwa [List.enum_map_snd] at this

/-- If every element maps to `.ok`, so does the whole `mapM`. -/
theorem mapM_ok_of_forall {ε α β : Type} (f : α → Except ε β) :
    ∀ (l : List α), (∀ x ∈ l, ∃ y, f x = .ok y) → ∃ ys, l.mapM f = .ok ys := by
  intro l
  rw [← List.mapM'_eq_mapM]
  induction l with
  | nil => intro _; exact ⟨[], rfl⟩
  | cons a t ih =>
    intro h
    obtain ⟨y, hy⟩ := h a (List.mem_cons_self a t)
    obtain ⟨ys, hys⟩ := ih (fun x hx => h x (List.mem_cons_of_mem a hx))
    refine ⟨y :: ys, ?_⟩
    simp only [List.mapM'_cons, hy, hys, bind, Except.bind, pure, Except.pure]

/-- A successful `mapM` agrees with the pure map of any total refinement of
the effectful function. -/
theorem mapM_ok_map {ε α β : Type} (f : α → Except ε β) (g : α → β)
    (hg : ∀ x y, f x = .ok y → g x = y) :
    ∀ (l : List α) (ys : List β), l.mapM f = .ok ys → l.map g = ys := by
  intro l
  induction l with
  | nil =>
    intro ys h
    rw [← List.mapM'_eq_mapM] at h
    simp only [List.mapM'_nil, pure, Except.pure] at h
    cases h
    rfl
  | cons a t ih =>
    intro ys h
    rw [← List.mapM'_eq_mapM] at h
    simp only [List.mapM'_cons, bind, Except.bind] at h
    cases ha : f a with
    | error e => rw [ha] at h; cases h
    | ok y =>
      rw [ha] at h
      rw [← List.mapM'_eq_mapM] at ih
      cases ht : List.mapM' f t with
      | error e => rw [ht] at h; cases h
      | ok ys' =>
        rw [ht] at h
        simp only [pure, Except.pure] at h
        cases h
        simp [hg a y ha, ih ys' ht]

/-- `parseEnvScore` cannot throw on a string cell. -/
theorem parseEnvScore_str_ok (s : String) : ∃ o, parseEnvScore (Cell.str s) = .ok o := by
  unfold parseEnvScore
  by_cases h : (!(Cell.str s).truthy || (Cell.str s) == Cell.str "") = true
  · rw [if_pos h]; exact ⟨none, rfl⟩
  · rw [if_neg h]
    by_cases h2 : (jsSplit '/' s).length < 1
    · simp only [if_pos h2]; exact ⟨none, rfl⟩
    · simp only [if_neg h2]
      cases jsParseFloat (jsReplaceStar ((jsSplit '/' s).headD "")) with
      | none => exact ⟨none, rfl⟩
      | some a => exact ⟨some a, rfl⟩

/-- `parseTotalSamples` cannot throw on a string cell. -/
theorem parseTotalSamples_str_ok (s : String) : ∃ n, parseTotalSamples (Cell.str s) = .ok n := by
  unfold parseTotalSamples
  by_cases h : (!(Cell.str s).truthy || (Cell.str s) == Cell.str "") = true
  · rw [if_pos h]; exact ⟨0, rfl⟩
  · rw [if_neg h]
    by_cases h2 : (jsSplit '/' s).length < 3
    · simp only [if_pos h2]; exact ⟨0, rfl⟩
    · simp only [if_neg h2]
      cases jsParseInt ((jsSplit '/' s).getD 2 "") with
      | none => exact ⟨0, rfl⟩
      | some n => exact ⟨n, rfl⟩

/-- A cell that is a string or falsy: exactly the cells on which the
`.split` call inside the per-cell parsers cannot raise a TypeError. -/
def stringOrFalsy (c : Cell) : Bool :=
  match c with
  | .str _ => true
  | c => !c.truthy

/-- `cell || ''` is a string whenever the cell is a string or falsy. -/
theorem jsOr_str_of_stringOrFalsy {c : Cell} (h : stringOrFalsy c = true) :
    ∃ s, jsOr c (.str "") = Cell.str s := by
  cases c with
  | str s =>
    by_cases hs : (Cell.str s).truthy = true
    · exact ⟨s, by simp [jsOr, hs]⟩
    · exact ⟨"", by simp [jsOr, hs]⟩
  | num q =>
    have : (Cell.num q).truthy = false := by
      simpa [stringOrFalsy] using h
    exact ⟨"", by simp [jsOr, this]⟩
  | bool b =>
    have : (Cell.bool b).truthy = false := by
      simpa [stringOrFalsy] using h
    exact ⟨"", by simp [jsOr, this]⟩
  | null => exact ⟨"", by simp [jsOr, Cell.truthy]⟩
  | undefined => exact ⟨"", by simp [jsOr, Cell.truthy]⟩

/-- `objInsert` preserves a property of all stored values. -/
theorem objInsert_forall (P : Cell → Prop) {l : List (String × Cell)} {k : String} {v : Cell}
    (hl : ∀ p ∈ l, P p.2) (hv : P v) : ∀ p ∈ objInsert l k v, P p.2 := by
  intro p hp
  unfold objInsert at hp
  by_cases hk : l.any (fun p => p.1 == k) = true
  · rw [if_pos hk] at hp
    obtain ⟨q, hq, hpq⟩ := List.mem_map.mp hp
    by_cases h1 : (q.1 == k) = true
    · rw [if_pos h1] at hpq; cases hpq; exact hv
    · rw [if_neg h1] at hpq; cases hpq; exact hl _ hq
  · rw [if_neg hk] at hp
    rcases List.mem_append.mp hp with h | h
    · exact hl p h
    · rcases List.mem_singleton.mp h with rfl
      exact hv

/-- Invariant preservation along the `environments`-building fold. -/
theorem buildEnvs_fold_forall {header : List String} {row : List Cell} :
    ∀ (envs : List String) (acc : List (String × Cell)),
      (∀ e ∈ envs, stringOrFalsy (rowGet row (headerIndex header e)) = true) →
      (∀ p ∈ acc, ∃ s, p.2 = Cell.str s) →
      ∀ p ∈ envs.foldl
        (fun acc env => objInsert acc env (jsOr (rowGet row (headerIndex header env)) (.str ""))) acc,
      ∃ s, p.2 = Cell.str s := by
  intro envs
  induction envs with
  | nil =>
    intro acc _ hacc
    simpa using hacc
  | cons e t ih =>
    intro acc h hacc
    simp only [List.foldl_cons]
    exact ih _ (fun e' he' => h e' (List.mem_cons_of_mem e he'))
      (objInsert_forall (fun c => ∃ s, c = Cell.str s) hacc
        (jsOr_str_of_stringOrFalsy (h e (List.mem_cons_self e t))))

/-- When every environment column holds a string-or-falsy cell, every value
stored in the per-row `environments` object is a string. -/
theorem buildEnvs_cells_str {header : List String} {envs : List String} {row : List Cell}
    (h : ∀ e ∈ envs, stringOrFalsy (rowGet row (headerIndex header e)) = true) :
    ∀ p ∈ buildEnvs header envs row, ∃ s, p.2 = Cell.str s :=
  buildEnvs_fold_forall envs [] h (by intro p hp; cases hp)

/-- `>>=` on an `ok` value reduces. -/
theorem except_bind_ok {ε α β : Type} (a : α) (f : α → Except ε β) :
    (Except.ok a : Except ε α) >>= f = f a := rfl

/-- `pure` into `Except` is `ok`. -/
theorem except_pure_eq {ε α : Type} (a : α) : (pure a : Except ε α) = Except.ok a := rfl

/-- A row whose environment columns hold only string-or-falsy cells decodes
without throwing. -/
theorem decodeRow_ok_of_string_cells {d : ApiData} {row : List Cell}
    (h : ∀ e ∈ d.environments, stringOrFalsy (rowGet row (headerIndex d.header e)) = true) :
    ∃ r, decodeRow d row = .ok r := by
  have hcells : ∀ c ∈ (buildEnvs d.header d.environments row).map (fun p => p.2),
      ∃ s, c = Cell.str s := by
    intro c hc
    obtain ⟨p, hp, hpc⟩ := List.mem_map.mp hc
    rw [← hpc]
    exact buildEnvs_cells_str h p hp
  obtain ⟨parsed, hparsed⟩ :=
    mapM_ok_of_forall parseEnvScore ((buildEnvs d.header d.environments row).map (fun p => p.2))
      (fun c hc => by
        obtain ⟨s, rfl⟩ := hcells c hc
        exact parseEnvScore_str_ok s)
  obtain ⟨samples, hsamples⟩ :=
    mapM_ok_of_forall parseTotalSamples ((buildEnvs d.header d.environments row).map (fun p => p.2))
      (fun c hc => by
        obtain ⟨s, rfl⟩ := hcells c hc
        exact parseTotalSamples_str_ok s)
  cases hdec : decodeRow d row with
  | ok r => exact ⟨r, rfl⟩
  | error e =>
    exfalso
    simp only [decodeRow, hparsed, hsamples, except_bind_ok, except_pure_eq] at hdec
    cases hdec

/-! ## Claim C1 -/

/-- C1 (counterexample): the row-decoding step does NOT complete for every
rows array — a truthy non-string cell in an environment column (here the
number `1` under column `"e"`) makes `parseEnvScore` call `.split` on a
non-string, raising a TypeError, modelled as `Except.error`. -/
theorem decode_throws_counterexample :
    decodeRows ⟨["e"], [[Cell.num 1]], ["e"]⟩ = Except.error () := by decide

/-- C1 (amended): the row-decoding step completes without throwing for every
header array and every rows array whose environment cells are strings or
falsy (missing, `null`, `0`, `false`, empty); in the worst case the produced
record carries only default/absent derived fields.  Truthy non-string
environment cells are the sole source of exceptions. -/
theorem decode_total_on_string_cells (d : ApiData)
    (h : ∀ row ∈ d.rows, ∀ e ∈ d.environments,
      stringOrFalsy (rowGet row (headerIndex d.header e)) = true) :
    ∃ rs, decodeRows d = .ok rs := by
  unfold decodeRows
  exact mapM_ok_of_forall (decodeRow d) d.rows
    (fun row hrow => decodeRow_ok_of_string_cells (h row hrow))

/-- Witness for `decode_total_on_string_cells` at a concrete payload with a
malformed string cell and a missing cell. -/
theorem decode_total_on_string_cells_witness :
    ∃ rs, decodeRows ⟨["e"], [[Cell.str "garbage//"], []], ["e"]⟩ = .ok rs :=
  decode_total_on_string_cells ⟨["e"], [[Cell.str "garbage//"], []], ["e"]⟩ (by decide)

/-! ## Claim C3 -/

/-- C3: the slash-delimited cell contract: `"75.5*/whatever/120"` parses to
accuracy `75.5` (asterisk stripped) and sample count `120`; `"10/x"` (two
segments) parses to accuracy `10` and sample count `0`; the empty cell
parses to accuracy absent and sample count `0`. -/
theorem parse_cell_contract :
    parseEnvScore (Cell.str "75.5*/whatever/120") = .ok (some (151 / 2 : ℚ)) ∧
    parseTotalSamples (Cell.str "75.5*/whatever/120") = .ok 120 ∧
    parseEnvScore (Cell.str "10/x") = .ok (some 10) ∧
    parseTotalSamples (Cell.str "10/x") = .ok 0 ∧
    parseEnvScore (Cell.str "") = .ok none ∧
    parseTotalSamples (Cell.str "") = .ok 0 := by
  refine ⟨by decide, by decide, by decide, by decide, by decide, by decide⟩

/-- `>>=` on an `error` value short-circuits. -/
theorem except_bind_error {ε α β : Type} (e : ε) (f : α → Except ε β) :
    (Except.error e : Except ε α) >>= f = .error e := rfl

/-- Inversion of a successful `decodeRow`: every directly-copied field in
terms of the header lookup, plus the two effectful intermediate results. -/
theorem decodeRow_ok_inv {d : ApiData} {row : List Cell} {r : DecodedRow}
    (h : decodeRow d row = .ok r) :
    ∃ parsed samples,
      List.mapM parseEnvScore ((buildEnvs d.header d.environments row).map (fun p => p.2)) =
        .ok parsed ∧
      List.mapM parseTotalSamples ((buildEnvs d.header d.environments row).map (fun p => p.2)) =
        .ok samples ∧
      r.uid = rowGet row (headerIndex d.header "UID") ∧
      r.hotkey = rowGet row (headerIndex d.header "Hotkey") ∧
      r.model = rowGet row (headerIndex d.header "Model") ∧
      r.revision = rowGet row (headerIndex d.header "Rev") ∧
      r.environments = buildEnvs d.header d.environments row ∧
      r.layerPoints = [
        ("L3", jsOr (rowGet row (headerIndex d.header "L3")) (.num 0)),
        ("L4", jsOr (rowGet row (headerIndex d.header "L4")) (.num 0)),
        ("L5", jsOr (rowGet row (headerIndex d.header "L5")) (.num 0)),
        ("L6", jsOr (rowGet row (headerIndex d.header "L6")) (.num 0)),
        ("L7", jsOr (rowGet row (headerIndex d.header "L7")) (.num 0)),
        ("L8", jsOr (rowGet row (headerIndex d.header "L8")) (.num 0))] ∧
      r.totalPoints = jsOr (rowGet row (headerIndex d.header "Pts")) (.num 0) ∧
      r.eligible = (rowGet row (headerIndex d.header "Elig") == .str "Y") ∧
      r.firstBlock = rowGet row (headerIndex d.header "FirstBlk") ∧
      r.weight = jsOr (rowGet row (headerIndex d.header "Wgt")) (.num 0) ∧
      r.avgEnvScore = (if (parsed.filterMap id).length > 0
        then some ((parsed.filterMap id).foldl (· + ·) 0 / ((parsed.filterMap id).length : ℚ))
        else none) ∧
      r.totalSamples = samples.foldl (· + ·) 0 := by
  simp only [decodeRow] at h
  cases h1 : List.mapM parseEnvScore ((buildEnvs d.header d.environments row).map (fun p => p.2)) with
  | error e => rw [h1, except_bind_error] at h; cases h
  | ok parsed =>
    rw [h1, except_bind_ok] at h
    cases h2 : List.mapM parseTotalSamples
        ((buildEnvs d.header d.environments row).map (fun p => p.2)) with
    | error e => rw [h2, except_bind_error] at h; cases h
    | ok samples =>
      rw [h2, except_bind_ok, except_pure_eq] at h
      cases h
      exact ⟨parsed, samples, rfl, rfl, rfl, rfl, rfl, rfl, rfl, rfl, rfl, rfl, rfl, rfl, rfl, rfl⟩

/-! ## Claim C2 -/

/-- The record decoded from an empty header and an empty row. -/
def emptyHeaderRow : DecodedRow :=
  { uid := .undefined, hotkey := .undefined, model := .undefined, revision := .undefined,
    environments := [],
    layerPoints := [("L3", .num 0), ("L4", .num 0), ("L5", .num 0),
                    ("L6", .num 0), ("L7", .num 0), ("L8", .num 0)],
    totalPoints := .num 0, eligible := false, firstBlock := .undefined,
    weight := .num 0, avgEnvScore := none, totalSamples := 0 }

/-- C2 (counterexample): with a header lacking every expected column, the
decoder does NOT default `uid` to `0` — it copies `row[undefined]`, leaving
the field `undefined` (and likewise the text fields are left `undefined`,
not the empty string). -/
theorem decode_missing_column_counterexample :
    decodeRows ⟨[], [[]], []⟩ = .ok [emptyHeaderRow] ∧
    emptyHeaderRow.uid = Cell.undefined ∧
    emptyHeaderRow.uid ≠ Cell.num 0 ∧
    emptyHeaderRow.hotkey ≠ Cell.str "" := by
  refine ⟨by decide, rfl, by decide, by decide⟩

/-- C2 (amended): for a header lacking an expected column, the decoder
defaults only the `|| 0`-guarded numeric fields (`totalPoints`, `weight`,
the six layer points) to `0` and `eligible` to `false`; the raw-copied
fields (`uid`, `hotkey`, `model`, `revision`, `firstBlock`) are left
`undefined`, and environment cells default to the empty string. -/
theorem decode_missing_column_defaults (d : ApiData) (row : List Cell) (r : DecodedRow)
    (h : decodeRow d row = .ok r) :
    ("UID" ∉ d.header → r.uid = Cell.undefined) ∧
    ("Hotkey" ∉ d.header → r.hotkey = Cell.undefined) ∧
    ("Model" ∉ d.header → r.model = Cell.undefined) ∧
    ("Rev" ∉ d.header → r.revision = Cell.undefined) ∧
    ("FirstBlk" ∉ d.header → r.firstBlock = Cell.undefined) ∧
    ("Pts" ∉ d.header → r.totalPoints = Cell.num 0) ∧
    ("Wgt" ∉ d.header → r.weight = Cell.num 0) ∧
    ("Elig" ∉ d.header → r.eligible = false) ∧
    ("L3" ∉ d.header → r.layerPoints.lookup "L3" = some (Cell.num 0)) ∧
    ("L4" ∉ d.header → r.layerPoints.lookup "L4" = some (Cell.num 0)) ∧
    ("L5" ∉ d.header → r.layerPoints.lookup "L5" = some (Cell.num 0)) ∧
    ("L6" ∉ d.header → r.layerPoints.lookup "L6" = some (Cell.num 0)) ∧
    ("L7" ∉ d.header → r.layerPoints.lookup "L7" = some (Cell.num 0)) ∧
    ("L8" ∉ d.header → r.layerPoints.lookup "L8" = some (Cell.num 0)) := by
  obtain ⟨parsed, samples, h1, h2, huid, hhot, hmod, hrev, henv, hlay, hpts, helig, hfb, hwgt,
    havg, hts⟩ := decodeRow_ok_inv h
  refine ⟨?_, ?_, ?_, ?_, ?_, ?_, ?_, ?_, ?_, ?_, ?_, ?_, ?_, ?_⟩
  · intro hn; rw [huid, headerIndex_of_not_mem hn]; rfl
  · intro hn; rw [hhot, headerIndex_of_not_mem hn]; rfl
  · intro hn; rw [hmod, headerIndex_of_not_mem hn]; rfl
  · intro hn; rw [hrev, headerIndex_of_not_mem hn]; rfl
  · intro hn; rw [hfb, headerIndex_of_not_mem hn]; rfl
  · intro hn; rw [hpts, headerIndex_of_not_mem hn]; rfl
  · intro hn; rw [hwgt, headerIndex_of_not_mem hn]; rfl
  · intro hn; rw [helig, headerIndex_of_not_mem hn]; rfl
  · intro hn; rw [hlay, headerIndex_of_not_mem hn]; rfl
  · intro hn; rw [hlay, headerIndex_of_not_mem hn]; rfl
  · intro hn; rw [hlay, headerIndex_of_not_mem hn]; rfl
  · intro hn; rw [hlay, headerIndex_of_not_mem hn]; rfl
  · intro hn; rw [hlay, headerIndex_of_not_mem hn]; rfl
  · intro hn; rw [hlay, headerIndex_of_not_mem hn]; rfl

/-- Witness for `decode_missing_column_defaults` at the empty header. -/
theorem decode_missing_column_defaults_witness :
    emptyHeaderRow.totalPoints = Cell.num 0 :=
  (decode_missing_column_defaults ⟨[], [[]], []⟩ [] emptyHeaderRow
    (by decide)).2.2.2.2.2.1 (by decide)

/-! ## Claim C4 -/

/-- The accuracy a cell contributes: the parsed score, or `null` if parsing
returned `null`/NaN (a throwing cell contributes nothing, but a decoded
record cannot contain one). -/
def scoreOf (c : Cell) : Option ℚ :=
  match parseEnvScore c with
  | .ok o => o
  | .error _ => none

/-- All successfully parsed per-environment accuracies of a record, in
environment order. -/
def recordScores (r : DecodedRow) : List ℚ :=
  (r.environments.map (fun p => p.2)).filterMap scoreOf

/-- C4: for every decoded record, `avgEnvScore` is absent exactly when no
environment cell parses to a numeric accuracy, and otherwise equals the
unweighted arithmetic mean of all successfully parsed accuracies. -/
theorem avgEnvScore_is_mean (d : ApiData) (row : List Cell) (r : DecodedRow)
    (h : decodeRow d row = .ok r) :
    (r.avgEnvScore = none ↔ recordScores r = []) ∧
    (recordScores r ≠ [] →
      r.avgEnvScore = some ((recordScores r).sum / ((recordScores r).length : ℚ))) := by
  obtain ⟨parsed, samples, h1, _h2, _, _, _, _, henv, _, _, _, _, _, havg, _⟩ :=
    decodeRow_ok_inv h
  have hparsed : ((buildEnvs d.header d.environments row).map (fun p => p.2)).map scoreOf
      = parsed :=
    mapM_ok_map parseEnvScore scoreOf
      (fun x y hxy => by simp [scoreOf, hxy]) _ parsed h1
  have hscores : recordScores r = parsed.filterMap id := by
    rw [recordScores, henv, ← hparsed]
    simp [List.filterMap_map, Function.comp]
  rw [hscores, havg]
  constructor
  · constructor
    · intro hnone
      by_cases hl : (parsed.filterMap id).length > 0
      · rw [if_pos hl] at hnone; cases hnone
      · exact List.length_eq_zero.mp (by omega)
    · intro hnil
      rw [if_neg (by simp [hnil])]
  · intro hne
    have hl : (parsed.filterMap id).length > 0 := by
      cases hfe : parsed.filterMap id with
      | nil => exact absurd hfe hne
      | cons a t => simp [hfe]
    rw [if_pos hl, foldl_add_eq_sum, zero_add]

/-- The record decoded from the witness payload for the mean property:
one parseable cell (`"10/x"`) and one empty cell. -/
def meanWitnessRow : DecodedRow :=
  { uid := .undefined, hotkey := .undefined, model := .undefined, revision := .undefined,
    environments := [("e1", .str "10/x"), ("e2", .str "")],
    layerPoints := [("L3", .num 0), ("L4", .num 0), ("L5", .num 0),
                    ("L6", .num 0), ("L7", .num 0), ("L8", .num 0)],
    totalPoints := .num 0, eligible := false, firstBlock := .undefined,
    weight := .num 0, avgEnvScore := some 10, totalSamples := 0 }

/-- Witness for `avgEnvScore_is_mean` at a concrete two-environment row. -/
theorem avgEnvScore_is_mean_witness :
    meanWitnessRow.avgEnvScore =
      some ((recordScores meanWitnessRow).sum / ((recordScores meanWitnessRow).length : ℚ)) :=
  (avgEnvScore_is_mean ⟨["e1", "e2"], [[Cell.str "10/x", Cell.str ""]], ["e1", "e2"]⟩
    [Cell.str "10/x", Cell.str ""] meanWitnessRow (by decide)).2 (by decide)

/-! ## Claim C5 -/

/-- The sample count a cell contributes (a throwing cell contributes
nothing, but a decoded record cannot contain one). -/
def sampleOf (c : Cell) : Int :=
  match parseTotalSamples c with
  | .ok n => n
  | .error _ => 0

/-- The parsed per-environment sample counts of a record. -/
def recordSamples (r : DecodedRow) : List Int :=
  (r.environments.map (fun p => p.2)).map sampleOf

/-- C5 (counterexample): `totalSamples` CAN be negative — the sample
segment `"-5"` is not malformed for `parseInt`, so a three-segment cell
whose third segment is `"-5"` contributes `-5`, and the decoded record has
`totalSamples = -5 < 0`. -/
theorem totalSamples_negative_counterexample :
    (decodeRows ⟨["e"], [[Cell.str "x/x/-5"]], ["e"]⟩).map
      (fun rs => rs.map (fun r => r.totalSamples)) = .ok [-5] ∧
    ((-5 : Int) < 0) := by
  refine ⟨by decide, by decide⟩

/-- C5 (amended): for every decoded record, `totalSamples` equals the sum
over all environment cells of the parsed sample counts (an unparsable
segment contributes `0`), and it is non-negative whenever every parsed
count is non-negative; a sample segment parsing to a negative integer makes
it negative. -/
theorem totalSamples_is_sum (d : ApiData) (row : List Cell) (r : DecodedRow)
    (h : decodeRow d row = .ok r) :
    r.totalSamples = (recordSamples r).sum ∧
    ((∀ n ∈ recordSamples r, 0 ≤ n) → 0 ≤ r.totalSamples) := by
  obtain ⟨parsed, samples, _h1, h2, _, _, _, _, henv, _, _, _, _, _, _, hts⟩ :=
    decodeRow_ok_inv h
  have hsamples : ((buildEnvs d.header d.environments row).map (fun p => p.2)).map sampleOf
      = samples :=
    mapM_ok_map parseTotalSamples sampleOf
      (fun x y hxy => by simp [sampleOf, hxy]) _ samples h2
  have hrec : recordSamples r = samples := by
    rw [recordSamples, henv, hsamples]
  have hsum : r.totalSamples = (recordSamples r).sum := by
    rw [hts, hrec, foldl_add_eq_sum, zero_add]
  refine ⟨hsum, ?_⟩
  intro hpos
  rw [hsum]
  exact List.sum_nonneg hpos

/-- Witness for `totalSamples_is_sum` at a concrete two-environment row
(all parsed counts are `0`, hence non-negative). -/
theorem totalSamples_is_sum_witness :
    meanWitnessRow.totalSamples = (recordSamples meanWitnessRow).sum ∧
    0 ≤ meanWitnessRow.totalSamples :=
  ⟨(totalSamples_is_sum ⟨["e1", "e2"], [[Cell.str "10/x", Cell.str ""]], ["e1", "e2"]⟩
      [Cell.str "10/x", Cell.str ""] meanWitnessRow (by decide)).1,
   (totalSamples_is_sum ⟨["e1", "e2"], [[Cell.str "10/x", Cell.str ""]], ["e1", "e2"]⟩
      [Cell.str "10/x", Cell.str ""] meanWitnessRow (by decide)).2 (by decide)⟩

/-! ## Claim C10 -/

/-- C10 (counterexample): failure during row decoding is NOT all-or-nothing.
Starting from a state holding an old payload, a fetch whose payload decodes
with an exception (environment cell `1`, a truthy non-string) leaves
`models`/`lastUpdate` at their prior values but has already replaced
`weightsData` — the displayed state is partially overwritten. -/
theorem fetch_partial_overwrite_counterexample :
    decodeRows ⟨["e"], [[Cell.num 1]], ["e"]⟩ = .error () ∧
    (fetchStep ⟨some ⟨[], [], []⟩, [emptyHeaderRow], 5⟩
        (.success ⟨["e"], [[Cell.num 1]], ["e"]⟩) 9).weightsData ≠
      (⟨some ⟨[], [], []⟩, [emptyHeaderRow], 5⟩ : DashState).weightsData ∧
    (fetchStep ⟨some ⟨[], [], []⟩, [emptyHeaderRow], 5⟩
        (.success ⟨["e"], [[Cell.num 1]], ["e"]⟩) 9).models =
      (⟨some ⟨[], [], []⟩, [emptyHeaderRow], 5⟩ : DashState).models ∧
    (fetchStep ⟨some ⟨[], [], []⟩, [emptyHeaderRow], 5⟩
        (.success ⟨["e"], [[Cell.num 1]], ["e"]⟩) 9).lastUpdate =
      (⟨some ⟨[], [], []⟩, [emptyHeaderRow], 5⟩ : DashState).lastUpdate := by
  refine ⟨by decide, by decide, by decide, by decide⟩

/-- C10 (amended): a failure before `setWeightsData` (network error or
malformed JSON) leaves the whole state untouched; a successful fetch whose
decode throws leaves `models` and `lastUpdate` untouched but has already
replaced `weightsData`; only when decoding succeeds are all three parts
replaced together. -/
theorem fetch_cycle_state (s : DashState) (now : Nat) :
    (fetchStep s .failure now = s) ∧
    (∀ p, decodeRows p = .error () →
      fetchStep s (.success p) now = { s with weightsData := some p }) ∧
    (∀ p ms, decodeRows p = .ok ms →
      fetchStep s (.success p) now = ⟨some p, ms, now⟩) := by
  refine ⟨rfl, ?_, ?_⟩
  · intro p hp
    simp [fetchStep, hp]
  · intro p ms hp
    simp [fetchStep, hp]

/-- Witness for `fetch_cycle_state` at a throwing payload and at a decoding
payload. -/
theorem fetch_cycle_state_witness :
    fetchStep ⟨none, [], 0⟩ (.success ⟨["e"], [[Cell.num 1]], ["e"]⟩) 7 =
      ⟨some ⟨["e"], [[Cell.num 1]], ["e"]⟩, [], 0⟩ ∧
    fetchStep ⟨none, [], 0⟩ (.success ⟨[], [[]], []⟩) 7 =
      ⟨some ⟨[], [[]], []⟩, [emptyHeaderRow], 7⟩ :=
  ⟨(fetch_cycle_state ⟨none, [], 0⟩ 7).2.1 ⟨["e"], [[Cell.num 1]], ["e"]⟩ (by decide),
   (fetch_cycle_state ⟨none, [], 0⟩ 7).2.2 ⟨[], [[]], []⟩ [emptyHeaderRow] (by decide)⟩

/-! ## Claims C8 and C9 -/

/-- `listLeads` decides list prefixing. -/
theorem listLeads_iff (n : List Char) : ∀ (h : List Char), listLeads n h = true ↔ n <+: h := by
  induction n with
  | nil => intro h; simp [listLeads]
  | cons a as ih =>
    intro h
    cases h with
    | nil => simp [listLeads]
    | cons b bs =>
      show (a == b && listLeads as bs) = true ↔ a :: as <+: b :: bs
      rw [List.cons_prefix_cons, Bool.and_eq_true, beq_iff_eq, ih bs]

/-- `listContains` decides contiguous containment. -/
theorem listContains_iff (n : List Char) : ∀ (h : List Char),
    listContains n h = true ↔ n <:+: h := by
  intro h
  induction h with
  | nil =>
    simp [listContains, listLeads_iff]
  | cons c t ih =>
    rw [List.infix_cons_iff]
    simp only [listContains, Bool.or_eq_true, listLeads_iff, ih]

/-- C8: filtering with the empty query and tab `'all'` is the identity;
tab `'eligible'` keeps exactly the eligible records in order; and for every
query and tab the result is the single-pass filter by the conjunction of
the search predicate and the tab predicate (logical AND). -/
theorem filterData_spec (l : List ModelRow) :
    filterData "" Tab.all l = l ∧
    filterData "" Tab.eligible l = l.filter (fun r => r.eligible) ∧
    ∀ (q : String) (t : Tab),
      filterData q t l =
        l.filter (fun r => ((q == "") || searchHit q r) && ((t == Tab.all) || r.eligible)) := by
  refine ⟨rfl, rfl, ?_⟩
  intro q t
  unfold filterData
  by_cases hq : q = ""
  · subst hq
    cases t with
    | all => simp [List.filter_true]
    | eligible =>
      have he : (Tab.eligible == Tab.all) = false := rfl
      simp [he]
  · have hq' : (q != "") = true := bne_iff_ne.mpr hq
    have hq'' : (q == "") = false := beq_eq_false_iff_ne.mpr hq
    cases t with
    | all => simp [hq', hq'']
    | eligible =>
      have he : (Tab.eligible == Tab.all) = false := rfl
      simp only [hq', hq'', he, Bool.false_or, if_true, List.filter_filter]
      apply List.filter_congr
      intro a _
      rw [Bool.and_comm]

/-- A record whose only distinguishing feature is its uid (for the concrete
uid-search checks). -/
def uidRec (n : Int) : ModelRow :=
  { uid := n, hotkey := "", model := "", revision := "", environments := [],
    layerPoints := [], totalPoints := 0, eligible := false, firstBlock := 0,
    weight := 0, avgEnvScore := none, totalSamples := 0 }

/-- C9: for a non-empty query, a record passes the search filter iff the
query is a case-insensitive substring of its model name, or of its hotkey,
or a substring of the decimal string of its uid (containment, not
equality); concretely, `"12"` matches uid `12` and uid `123` but not
uid `45`. -/
theorem search_filter_semantics :
    (∀ (q : String) (l : List ModelRow) (r : ModelRow), q ≠ "" →
      (r ∈ filterData q Tab.all l ↔ r ∈ l ∧
        ((jsToLower q).data <:+: (jsToLower r.model).data ∨
         (jsToLower q).data <:+: (jsToLower r.hotkey).data ∨
         q.data <:+: (toString r.uid).data))) ∧
    filterData "12" Tab.all [uidRec 12, uidRec 45, uidRec 123] = [uidRec 12, uidRec 123] := by
  constructor
  · intro q l r hq
    have hq' : (q != "") = true := bne_iff_ne.mpr hq
    have hfd : filterData q Tab.all l = l.filter (searchHit q) := by
      unfold filterData
      simp [hq']
    rw [hfd, List.mem_filter, searchHit, jsIncludes, jsIncludes, jsIncludes]
    simp [listContains_iff, or_assoc]
  · decide

/-- Witness for `search_filter_semantics` at query `"12"` and uid `12`. -/
theorem search_filter_semantics_witness :
    uidRec 12 ∈ filterData "12" Tab.all [uidRec 12] ↔ uidRec 12 ∈ [uidRec 12] ∧
      ((jsToLower "12").data <:+: (jsToLower (uidRec 12).model).data ∨
       (jsToLower "12").data <:+: (jsToLower (uidRec 12).hotkey).data ∨
       ("12" : String).data <:+: (toString (uidRec 12).uid).data) :=
  search_filter_semantics.1 "12" [uidRec 12] (uidRec 12) (by decide)

/-! ## Order properties of the sort comparator -/

/-- `lcmp` flips under argument swap. -/
theorem lcmp_swap {α : Type} [LinearOrder α] (a b : α) : lcmp b a = (lcmp a b).swap := by
  rcases lt_trichotomy a b with h | h | h
  · simp [lcmp, h, asymm h, Ordering.swap]
  · subst h; simp [lcmp, lt_irrefl, Ordering.swap]
  · simp [lcmp, h, asymm h, Ordering.swap]

/-- `lcmp` returns `eq` exactly on equal arguments. -/
theorem lcmp_eq_eq_iff {α : Type} [LinearOrder α] {a b : α} : lcmp a b = .eq ↔ a = b := by
  rcases lt_trichotomy a b with h | h | h
  · simp [lcmp, h, ne_of_lt h]
  · subst h; simp [lcmp, lt_irrefl]
  · simp [lcmp, h, asymm h, ne_of_gt h]

/-- `lcmp` avoids `gt` exactly on ordered arguments. -/
theorem lcmp_ne_gt_iff {α : Type} [LinearOrder α] {a b : α} : lcmp a b ≠ .gt ↔ a ≤ b := by
  rcases lt_trichotomy a b with h | h | h
  · simp [lcmp, h, asymm h, le_of_lt h]
  · subst h; simp [lcmp, lt_irrefl]
  · simp [lcmp, h, asymm h, not_le_of_gt h]

/-- Transitivity of `lcmp`'s non-strict order. -/
theorem lcmp_ne_gt_trans {α : Type} [LinearOrder α] {a b c : α}
    (h1 : lcmp a b ≠ .gt) (h2 : lcmp b c ≠ .gt) : lcmp a c ≠ .gt :=
  lcmp_ne_gt_iff.mpr (le_trans (lcmp_ne_gt_iff.mp h1) (lcmp_ne_gt_iff.mp h2))

/-- `strCmpAux` flips under argument swap. -/
theorem strCmpAux_swap : ∀ (as bs : List Char), strCmpAux bs as = (strCmpAux as bs).swap := by
  intro as
  induction as with
  | nil => intro bs; cases bs <;> simp [strCmpAux, Ordering.swap]
  | cons a as ih =>
    intro bs
    cases bs with
    | nil => simp [strCmpAux, Ordering.swap]
    | cons b bs =>
      show (match lcmp b a with | .eq => strCmpAux bs as | o => o) =
        (match lcmp a b with | .eq => strCmpAux as bs | o => o).swap
      rw [lcmp_swap]
      cases h : lcmp a b <;> simp [Ordering.swap, ih bs]

/-- `strCmpAux` returns `eq` exactly on equal lists. -/
theorem strCmpAux_eq_eq_iff : ∀ (as bs : List Char), strCmpAux as bs = .eq ↔ as = bs := by
  intro as
  induction as with
  | nil => intro bs; cases bs <;> simp [strCmpAux]
  | cons a as ih =>
    intro bs
    cases bs with
    | nil => simp [strCmpAux]
    | cons b bs =>
      show (match lcmp a b with | .eq => strCmpAux as bs | o => o) = .eq ↔ _
      cases h : lcmp a b with
      | eq =>
        have hab : a = b := lcmp_eq_eq_iff.mp h
        subst hab
        simp [ih bs]
      | lt =>
        have hab : a ≠ b := fun he => by rw [lcmp_eq_eq_iff.mpr he] at h; cases h
        simp [hab]
      | gt =>
        have hab : a ≠ b := fun he => by rw [lcmp_eq_eq_iff.mpr he] at h; cases h
        simp [hab]

/-- `lcmp` returns `lt` exactly on strictly ordered arguments. -/
theorem lcmp_eq_lt_iff {α : Type} [LinearOrder α] {a b : α} : lcmp a b = .lt ↔ a < b := by
  rcases lt_trichotomy a b with h | h | h
  · simp [lcmp, h]
  · subst h; simp [lcmp, lt_irrefl]
  · simp [lcmp, h, asymm h]

/-- Transitivity of `strCmpAux`'s non-strict order. -/
theorem strCmpAux_ne_gt_trans : ∀ (as bs cs : List Char),
    strCmpAux as bs ≠ .gt → strCmpAux bs cs ≠ .gt → strCmpAux as cs ≠ .gt := by
  intro as
  induction as with
  | nil =>
    intro bs cs _ _
    cases cs <;> simp [strCmpAux]
  | cons a as ih =>
    intro bs cs h1 h2
    cases bs with
    | nil => exact absurd rfl h1
    | cons b bs =>
      cases cs with
      | nil => exact absurd rfl h2
      | cons c cs =>
        have h1' : (match lcmp a b with | .eq => strCmpAux as bs | o => o) ≠ .gt := h1
        have h2' : (match lcmp b c with | .eq => strCmpAux bs cs | o => o) ≠ .gt := h2
        show (match lcmp a c with | .eq => strCmpAux as cs | o => o) ≠ .gt
        cases hab : lcmp a b with
        | gt => rw [hab] at h1'; exact absurd rfl h1'
        | lt =>
          have hab' : a < b := lcmp_eq_lt_iff.mp hab
          cases hbc : lcmp b c with
          | gt => rw [hbc] at h2'; exact absurd rfl h2'
          | lt =>
            have hbc' : b < c := lcmp_eq_lt_iff.mp hbc
            rw [lcmp_eq_lt_iff.mpr (lt_trans hab' hbc')]
            intro hx; cases hx
          | eq =>
            have hbc' : b = c := lcmp_eq_eq_iff.mp hbc
            subst hbc'
            rw [lcmp_eq_lt_iff.mpr hab']
            intro hx; cases hx
        | eq =>
          have hab' : a = b := lcmp_eq_eq_iff.mp hab
          subst hab'
          rw [hab] at h1'
          cases hac : lcmp a c with
          | gt => rw [hac] at h2'; exact absurd rfl h2'
          | lt => intro hx; cases hx
          | eq =>
            rw [hac] at h2'
            exact ih bs cs h1' h2'

/-- `scoreCmp` flips under argument swap. -/
theorem scoreCmp_swap (a b : Option ℚ) : scoreCmp b a = (scoreCmp a b).swap := by
  cases a <;> cases b
  · rfl
  · rfl
  · rfl
  · exact lcmp_swap _ _

/-- `scoreCmp` returns `eq` exactly on equal options. -/
theorem scoreCmp_eq_eq_iff {a b : Option ℚ} : scoreCmp a b = .eq ↔ a = b := by
  cases a <;> cases b
  · simp [scoreCmp]
  · simp [scoreCmp]
  · simp [scoreCmp]
  · simp only [scoreCmp, lcmp_eq_eq_iff, Option.some.injEq]

/-- Transitivity of `scoreCmp`'s non-strict order. -/
theorem scoreCmp_ne_gt_trans {a b c : Option ℚ}
    (h1 : scoreCmp a b ≠ .gt) (h2 : scoreCmp b c ≠ .gt) : scoreCmp a c ≠ .gt := by
  cases a with
  | none =>
    cases c with
    | none => intro hx; cases hx
    | some z => intro hx; cases hx
  | some x =>
    cases b with
    | none => exact absurd rfl h1
    | some y =>
      cases c with
      | none => exact absurd rfl h2
      | some z =>
        simp only [scoreCmp] at h1 h2 ⊢
        exact lcmp_ne_gt_trans h1 h2

/-- The comparison key of a record under a sort field: the lowercased
string, the number, or (for the average score) the nullable score. -/
inductive SortKey where
  | kq (q : ℚ)
  | ks (s : String)
  | kopt (o : Option ℚ)
deriving DecidableEq, Repr

/-- Constructor rank, ordering keys of different shapes (such pairs never
arise when comparing two records under one and the same field). -/
def keyRank : SortKey → Nat
  | .kq _ => 0
  | .ks _ => 1
  | .kopt _ => 2

/-- Three-way comparison of sort keys. -/
def keyCmp : SortKey → SortKey → Ordering
  | .kq a, .kq b => lcmp a b
  | .ks a, .ks b => strCmp a b
  | .kopt a, .kopt b => scoreCmp a b
  | x, y => lcmp (keyRank x) (keyRank y)

/-- The key a record is compared by under a sort field. -/
def sortKey (f : SortField) (r : ModelRow) : SortKey :=
  match f with
  | .avgEnvScore => .kopt r.avgEnvScore
  | f =>
    match jsLower (fieldVal f r) with
    | .num q => .kq q
    | .str s => .ks s
    | .bool b => .ks (if b then "true" else "false")

/-- `keyCmp` flips under argument swap. -/
theorem keyCmp_swap (x y : SortKey) : keyCmp y x = (keyCmp x y).swap := by
  cases x <;> cases y <;>
    first
      | exact lcmp_swap _ _
      | exact scoreCmp_swap _ _
      | exact strCmpAux_swap _ _
      | rfl

/-- `keyCmp` returns `eq` exactly on equal keys. -/
theorem keyCmp_eq_eq_iff : ∀ {x y : SortKey}, keyCmp x y = .eq ↔ x = y := by
  intro x y
  cases x <;> cases y <;> simp only [keyCmp, keyRank]
  case kq.kq a b => simp [lcmp_eq_eq_iff]
  case ks.ks a b =>
    rw [strCmp, strCmpAux_eq_eq_iff]
    simp [SortKey.ks.injEq, String.ext_iff]
  case kopt.kopt a b => simp [scoreCmp_eq_eq_iff]
  all_goals (constructor
             · intro h; cases h
             · intro h; cases h)

/-- Transitivity of `keyCmp`'s non-strict order. -/
theorem keyCmp_ne_gt_trans : ∀ (x y z : SortKey),
    keyCmp x y ≠ .gt → keyCmp y z ≠ .gt → keyCmp x z ≠ .gt := by
  intro x y z h1 h2
  cases x <;> cases y <;> cases z <;> simp only [keyCmp, keyRank] at h1 h2 ⊢ <;>
    first
      | exact lcmp_ne_gt_trans h1 h2
      | exact strCmpAux_ne_gt_trans _ _ _ h1 h2
      | exact scoreCmp_ne_gt_trans h1 h2
      | decide
      | exact absurd (by decide) h1
      | exact absurd (by decide) h2

/-- The comparator factors through the per-field sort key. -/
theorem modelCompare_key (f : SortField) (d : SortDirection) (a b : ModelRow) :
    modelCompare f d a b = ordOfDir d (keyCmp (sortKey f a) (sortKey f b)) := by
  cases f <;> rfl

/-- Swapping a comparison and then applying the direction flip commutes. -/
theorem ordOfDir_swap (d : SortDirection) (o : Ordering) :
    ordOfDir d o.swap = (ordOfDir d o).swap := by
  cases d <;> rfl

/-- Swapping the comparator's arguments flips its result. -/
theorem modelCompare_swap (f : SortField) (d : SortDirection) (a b : ModelRow) :
    modelCompare f d b a = (modelCompare f d a b).swap := by
  rw [modelCompare_key, modelCompare_key, keyCmp_swap, ordOfDir_swap]

/-- `swap` exchanges the `gt`- and `lt`-avoidance conditions. -/
theorem swap_ne_gt {o : Ordering} : o.swap ≠ .gt ↔ o ≠ .lt := by
  cases o <;> simp [Ordering.swap]

/-- `keyCmp`'s `lt`-avoidance is `gt`-avoidance of the swapped pair. -/
theorem keyCmp_ne_lt_iff {x y : SortKey} : keyCmp x y ≠ .lt ↔ keyCmp y x ≠ .gt := by
  rw [keyCmp_swap x y, swap_ne_gt]

/-- The comparator's non-strict order is transitive (for either direction). -/
theorem modelCompare_trans (f : SortField) (d : SortDirection) (a b c : ModelRow)
    (h1 : modelCompare f d a b ≠ .gt) (h2 : modelCompare f d b c ≠ .gt) :
    modelCompare f d a c ≠ .gt := by
  rw [modelCompare_key] at h1 h2 ⊢
  cases d with
  | asc => exact keyCmp_ne_gt_trans _ _ _ h1 h2
  | desc =>
    simp only [ordOfDir] at h1 h2 ⊢
    rw [swap_ne_gt, keyCmp_ne_lt_iff] at h1 h2 ⊢
    exact keyCmp_ne_gt_trans _ _ _ h2 h1

/-- The comparator's non-strict order is total (for either direction). -/
theorem modelCompare_total (f : SortField) (d : SortDirection) (a b : ModelRow) :
    (decide (modelCompare f d a b ≠ Ordering.gt) ||
     decide (modelCompare f d b a ≠ Ordering.gt)) = true := by
  rw [Bool.or_eq_true, decide_eq_true_eq, decide_eq_true_eq, modelCompare_swap f d a b]
  generalize modelCompare f d a b = o
  cases o <;> decide

/-- The output of `sortData` is sorted under the comparator's non-strict
order. -/
theorem sortData_sorted (f : SortField) (d : SortDirection) (l : List ModelRow) :
    (sortData f d l).Pairwise (fun a b => modelCompare f d a b ≠ .gt) := by
  have h : (List.mergeSort l (fun a b => decide (modelCompare f d a b ≠ Ordering.gt))).Pairwise
      (fun a b => decide (modelCompare f d a b ≠ Ordering.gt) = true) :=
    List.sorted_mergeSort
      (fun a b c h1 h2 => by
        rw [decide_eq_true_eq] at h1 h2 ⊢
        exact modelCompare_trans f d a b c h1 h2)
      (fun a b => modelCompare_total f d a b) l
  unfold sortData
  exact h.imp (fun hab => of_decide_eq_true hab)

/-! ## Claim C6 -/

/-- C6: under the derived average-score field, an absent score sorts as the
lowest possible value in both directions: descending, every record at or
after an absent-score record also has an absent score (absent forms a
suffix, after every numeric score — negative ones included); ascending,
absent forms a prefix. -/
theorem sort_absent_score_lowest (l : List ModelRow) (i j : Nat) (hij : i ≤ j) :
    (∀ (hj : j < (sortData .avgEnvScore .desc l).length),
      ((sortData .avgEnvScore .desc l).get ⟨i, lt_of_le_of_lt hij hj⟩).avgEnvScore = none →
      ((sortData .avgEnvScore .desc l).get ⟨j, hj⟩).avgEnvScore = none) ∧
    (∀ (hj : j < (sortData .avgEnvScore .asc l).length),
      ((sortData .avgEnvScore .asc l).get ⟨j, hj⟩).avgEnvScore = none →
      ((sortData .avgEnvScore .asc l).get ⟨i, lt_of_le_of_lt hij hj⟩).avgEnvScore = none) := by
  constructor
  · intro hj hnone
    rcases Nat.lt_or_ge i j with hlt | hge
    · have hp := sortData_sorted .avgEnvScore .desc l
      rw [List.pairwise_iff_get] at hp
      have hle := hp ⟨i, lt_of_le_of_lt hij hj⟩ ⟨j, hj⟩ hlt
      have hmc : modelCompare .avgEnvScore .desc
          ((sortData .avgEnvScore .desc l).get ⟨i, lt_of_le_of_lt hij hj⟩)
          ((sortData .avgEnvScore .desc l).get ⟨j, hj⟩) =
          (scoreCmp (((sortData .avgEnvScore .desc l).get ⟨i, lt_of_le_of_lt hij hj⟩).avgEnvScore)
            (((sortData .avgEnvScore .desc l).get ⟨j, hj⟩).avgEnvScore)).swap := rfl
      rw [hmc, hnone] at hle
      cases hopt : ((sortData .avgEnvScore .desc l).get ⟨j, hj⟩).avgEnvScore with
      | none => rfl
      | some q => rw [hopt] at hle; exact absurd rfl hle
    · have hij' : i = j := le_antisymm hij hge
      subst hij'
      exact hnone
  · intro hj hnone
    rcases Nat.lt_or_ge i j with hlt | hge
    · have hp := sortData_sorted .avgEnvScore .asc l
      rw [List.pairwise_iff_get] at hp
      have hle := hp ⟨i, lt_of_le_of_lt hij hj⟩ ⟨j, hj⟩ hlt
      have hmc : modelCompare .avgEnvScore .asc
          ((sortData .avgEnvScore .asc l).get ⟨i, lt_of_le_of_lt hij hj⟩)
          ((sortData .avgEnvScore .asc l).get ⟨j, hj⟩) =
          scoreCmp (((sortData .avgEnvScore .asc l).get ⟨i, lt_of_le_of_lt hij hj⟩).avgEnvScore)
            (((sortData .avgEnvScore .asc l).get ⟨j, hj⟩).avgEnvScore) := rfl
      rw [hmc, hnone] at hle
      cases hopt : ((sortData .avgEnvScore .asc l).get ⟨i, lt_of_le_of_lt hij hj⟩).avgEnvScore with
      | none => rfl
      | some q => rw [hopt] at hle; exact absurd rfl hle
    · have hij' : i = j := le_antisymm hij hge
      subst hij'
      exact hnone

/-- Sorting a two-element list is a single comparator test. -/
theorem sortData_pair (f : SortField) (d : SortDirection) (a b : ModelRow) :
    sortData f d [a, b] =
      if decide (modelCompare f d a b ≠ Ordering.gt) = true then [a, b] else [b, a] := by
  unfold sortData
  rw [List.mergeSort]
  simp [List.splitInTwo, List.merge]

/-- A record distinguished only by its average score. -/
def scoreRec (o : Option ℚ) : ModelRow :=
  { uid := 0, hotkey := "", model := "", revision := "", environments := [],
    layerPoints := [], totalPoints := 0, eligible := false, firstBlock := 0,
    weight := 0, avgEnvScore := o, totalSamples := 0 }

/-- Witness for `sort_absent_score_lowest`: sorting descending puts the
absent-score record after the record with the (negative) score `-1`. -/
theorem sort_absent_score_lowest_witness :
    ((sortData .avgEnvScore .desc [scoreRec none, scoreRec (some (-1))]).get
        ⟨1, by simp [sortData]⟩).avgEnvScore = none :=
  (sort_absent_score_lowest [scoreRec none, scoreRec (some (-1))] 1 1 (le_refl 1)).1
    (by simp [sortData])
    (by
      have hs : sortData .avgEnvScore .desc [scoreRec none, scoreRec (some (-1))]
          = [scoreRec (some (-1)), scoreRec none] := by
        rw [sortData_pair]; rfl
      simp [hs]
      rfl)

/-! ## Claim C7 -/

/-- Direction flipping preserves being `eq`. -/
theorem ordOfDir_eq_eq_iff {d : SortDirection} {o : Ordering} :
    ordOfDir d o = .eq ↔ o = .eq := by
  cases d with
  | asc => exact Iff.rfl
  | desc => cases o <;> simp [ordOfDir, Ordering.swap]

/-- Two records compare equal under a field exactly when they have the same
sort key. -/
theorem modelCompare_eq_eq_iff {f : SortField} {d : SortDirection} {a b : ModelRow} :
    modelCompare f d a b = .eq ↔ sortKey f a = sortKey f b := by
  rw [modelCompare_key, ordOfDir_eq_eq_iff, keyCmp_eq_eq_iff]

/-- C7: `sortData` is stable — for every field, direction and record `r`,
the subsequence of records comparing equal to `r` appears in the output in
exactly the input order. -/
theorem sortData_stable (f : SortField) (d : SortDirection) (l : List ModelRow) (r : ModelRow) :
    (sortData f d l).filter (fun x => decide (modelCompare f d r x = Ordering.eq)) =
      l.filter (fun x => decide (modelCompare f d r x = Ordering.eq)) := by
  have htrans : ∀ (a b c : ModelRow),
      decide (modelCompare f d a b ≠ Ordering.gt) = true →
      decide (modelCompare f d b c ≠ Ordering.gt) = true →
      decide (modelCompare f d a c ≠ Ordering.gt) = true := by
    intro a b c h1 h2
    rw [decide_eq_true_eq] at h1 h2 ⊢
    exact modelCompare_trans f d a b c h1 h2
  have hpair : (l.filter (fun x => decide (modelCompare f d r x = Ordering.eq))).Pairwise
      (fun a b => decide (modelCompare f d a b ≠ Ordering.gt) = true) := by
    apply List.pairwise_of_forall_mem_list
    intro a ha b hb
    rw [List.mem_filter, decide_eq_true_eq] at ha hb
    rw [decide_eq_true_eq]
    have hk : sortKey f a = sortKey f b :=
      (modelCompare_eq_eq_iff.mp ha.2).symm.trans (modelCompare_eq_eq_iff.mp hb.2)
    have : modelCompare f d a b = .eq := modelCompare_eq_eq_iff.mpr hk
    rw [this]
    intro hx; cases hx
  have hsub :
      List.Sublist (l.filter (fun x => decide (modelCompare f d r x = Ordering.eq)))
        (sortData f d l) := by
    unfold sortData
    exact List.sublist_mergeSort htrans (fun a b => modelCompare_total f d a b)
      hpair (List.filter_sublist l)
  have hsub2 := hsub.filter (fun x => decide (modelCompare f d r x = Ordering.eq))
  rw [List.filter_filter] at hsub2
  have hself : (fun x => decide (modelCompare f d r x = Ordering.eq) &&
      decide (modelCompare f d r x = Ordering.eq)) =
      (fun x => decide (modelCompare f d r x = Ordering.eq)) := by
    funext x
    rw [Bool.and_self]
  rw [hself] at hsub2
  have hperm :
      List.Perm ((sortData f d l).filter (fun x => decide (modelCompare f d r x = Ordering.eq)))
        (l.filter (fun x => decide (modelCompare f d r x = Ordering.eq))) := by
    unfold sortData
    exact (List.mergeSort_perm l _).filter _
  exact (hsub2.eq_of_length (hperm.length_eq.symm)).symm
